import Mathlib

/-!
Shallow embedding of the configuration / repository-registry engine of the
`storm` package-manager client (src/config.rs, src/repo.rs, src/repo/dummy.rs,
src/repo/gentoo.rs, src/sandbox.rs).

Modelling choices:
* Rust `HashMap<String, V>` / `toml::value::Table` are modelled as association
  lists with map semantics: `mapGet` reads the first matching key, `mapInsert`
  replaces the first matching entry (or appends), `mapRemove` drops every
  entry with the key.  On duplicate-free lists (the only lists a Rust map can
  denote) these agree exactly with the Rust containers.
* `toml::Value` is modelled by `Value`; the `Float` and `Datetime` payloads are
  irrelevant to every operation modelled here (they are only ever scalars to
  `find_key`), so those constructors carry no data.
* Fallible Rust functions returning `Result` are modelled with `Except`;
  a reachable `panic!()` / `.unwrap()` branch is modelled by an explicit
  outcome constructor.
* Machine-integer overflow in `leaf.parse::<usize>()` is unobservable here:
  an overflowing parse yields `Err` (hence `NoSuchKey`), while in the model
  the parse succeeds with a huge `Nat` that is necessarily out of bounds of
  the (finite) array, yielding `NoSuchKey` as well.
-/

namespace Storm

/-- First-match lookup in an association list (model of `HashMap::get` /
`Table::get`). -/
def mapGet {α : Type} : List (String × α) → String → Option α
  | [], _ => none
  | p :: ps, k => if p.1 == k then some p.2 else mapGet ps k

/-- Model of `HashMap::contains_key` / `Table::contains_key`. -/
def mapContains {α : Type} (m : List (String × α)) (k : String) : Bool :=
  (mapGet m k).isSome

/-- Model of `HashMap::insert` / `Table::insert` (the written value replaces
the entry at the key, or is appended when the key is absent). -/
def mapInsert {α : Type} : List (String × α) → String → α → List (String × α)
  | [], k, v => [(k, v)]
  | p :: ps, k, v => if p.1 == k then (k, v) :: ps else p :: mapInsert ps k v

/-- Model of `HashMap::remove` / `Table::remove` (key removed from the map). -/
def mapRemove {α : Type} (m : List (String × α)) (k : String) : List (String × α) :=
  m.filter (fun p => p.1 != k)

/-- `toml::Value` (src/config.rs uses `toml::value::{Table, Value}`).
Float and Datetime payloads are not inspected by any modelled operation. -/
inductive Value : Type where
  | string (s : String)
  | integer (i : Int)
  | float
  | boolean (b : Bool)
  | datetime
  | array (vs : List Value)
  | table (kvs : List (String × Value))

/-- `SyncType` from src/repo/gentoo.rs. -/
inductive SyncType : Type where
  | cvs
  | git
  | rsync
  | svn
  | webRsync
deriving DecidableEq

/-- `GentooRepo` from src/repo/gentoo.rs (`PathBuf` modelled as `String`). -/
structure GentooRepo : Type where
  location : String
  sync_type : SyncType
  sync_uri : String
deriving DecidableEq

/-- The `Repo` enum from src/repo.rs (`DummyRepo` is a unit struct). -/
inductive Repo : Type where
  | dummy
  | gentoo (r : GentooRepo)
deriving DecidableEq

/-- `RepoError` from src/repo.rs. -/
inductive RepoError : Type where
  | noSuchRepo
deriving DecidableEq

/-- `RepoConfig` from src/repo.rs: the ordered default list plus the
(flattened) map of named repositories. -/
structure RepoConfig : Type where
  default_repos : List String
  repos : List (String × Repo)
deriving DecidableEq

/-- `#[derive(Default)]` on `RepoConfig`: empty default list, empty map. -/
def RepoConfig.default : RepoConfig :=
  { default_repos := [], repos := [] }

/-- Lexicographic comparison of character lists by Unicode scalar value
(this coincides with Rust's byte-wise `str` ordering, since UTF-8 byte order
agrees with scalar-value order). -/
def leChars : List Char → List Char → Bool
  | [], _ => true
  | _ :: _, [] => false
  | a :: as, b :: bs =>
    if a.toNat = b.toNat then leChars as bs else decide (a.toNat < b.toNat)

/-- The string order used by `Vec::<String>::sort_unstable`. -/
def strLe (a b : String) : Bool :=
  leChars a.data b.data

/-- `sort_unstable` on `Vec<String>`, modelled by insertion sort; since equal
strings are indistinguishable, stability is unobservable. -/
def insertSorted (x : String) : List String → List String
  | [] => [x]
  | y :: ys => if strLe x y then x :: y :: ys else y :: insertSorted x ys

/-- Ascending sort of a list of strings (model of `Vec::sort_unstable`). -/
def sortStrings (l : List String) : List String :=
  l.foldr insertSorted []

def RepoConfig.list (c : RepoConfig) (sort only_default : Bool) : List String :=
  let repos := if only_default then c.default_repos else c.repos.map (fun p => p.1)
  if sort then sortStrings repos else repos

/-- The CLI `repo list` wrapper (src/repo.rs line 263) always calls
`list(!default_only, default_only)`. -/
def RepoConfig.list_cli (c : RepoConfig) (default_only : Bool) : List String :=
  c.list (!default_only) default_only

/-- `RepoConfig::add` (src/repo.rs lines 97-103): the backend record has
already been constructed by the sub-verb; insertion itself cannot fail and
silently overwrites an existing entry. -/
def RepoConfig.add (c : RepoConfig) (name : String) (repo : Repo) : RepoConfig :=
  { c with repos := mapInsert c.repos name repo }

/-- `RepoConfig::remove` (src/repo.rs lines 105-113). -/
def RepoConfig.remove (c : RepoConfig) (name : String) : Except RepoError RepoConfig :=
  match mapGet c.repos name with
  | none => .error .noSuchRepo
  | some _ =>
    .ok { default_repos := c.default_repos.filter (fun r => r != name),
          repos := mapRemove c.repos name }

/-- Outcome of `RepoConfig::rename`, which has a reachable `panic!()`. -/
inductive RenameOutcome : Type where
  | ok (c : RepoConfig)
  | noSuchRepo
  | panicked
deriving DecidableEq

/-- `RepoConfig::rename` (src/repo.rs lines 115-141).  The Rust code inserts
under the new name and then panics if the insert returned a previous value;
since the post-panic state is unobservable, checking for the previous value
before building the result is observationally identical. -/
def RepoConfig.rename (c : RepoConfig) (old_name new_name : String) : RenameOutcome :=
  match mapGet c.repos old_name with
  | none => .noSuchRepo
  | some repo =>
    let repos1 := mapRemove c.repos old_name
    if (mapGet repos1 new_name).isSome then
      .panicked
    else
      .ok { default_repos :=
              c.default_repos.map (fun r => if r == old_name then new_name else r),
            repos := mapInsert repos1 new_name repo }

/-- `RepoConfig::set_default` (src/repo.rs lines 143-164). -/
def RepoConfig.set_default (c : RepoConfig) (name : String) (default first : Bool) :
    Except RepoError RepoConfig :=
  if mapContains c.repos name then
    let retained := c.default_repos.filter (fun r => r != name)
    .ok { c with
          default_repos :=
            if default then
              if first then name :: retained else retained ++ [name]
            else retained }
  else
    .error .noSuchRepo

/-- The registry consistency invariant: every name in `default_repos` is a key
of `repos`. -/
def RepoConfig.invariant (c : RepoConfig) : Bool :=
  c.default_repos.all (fun n => mapContains c.repos n)

/-- One registry operation (the mutating operations of `RepoConfig`). -/
inductive Op : Type where
  | add (name : String) (repo : Repo)
  | remove (name : String)
  | rename (old_name new_name : String)
  | setDefault (name : String) (default first : Bool)

/-- Run one operation, `none` when it does not succeed (error or panic). -/
def applyOp (c : RepoConfig) : Op → Option RepoConfig
  | .add name repo => some (c.add name repo)
  | .remove name =>
    match c.remove name with
    | .ok c2 => some c2
    | .error _ => none
  | .rename o n =>
    match c.rename o n with
    | .ok c2 => some c2
    | _ => none
  | .setDefault name d f =>
    match c.set_default name d f with
    | .ok c2 => some c2
    | .error _ => none

/-- Run a sequence of operations, `none` as soon as one does not succeed. -/
def applySeq (c : RepoConfig) : List Op → Option RepoConfig
  | [] => some c
  | op :: ops =>
    match applyOp c op with
    | some c2 => applySeq c2 ops
    | none => none

/-- `ConfigError` from src/config.rs. -/
inductive ConfigError : Type where
  | noConfigFile
  | noSuchKey
deriving DecidableEq

/-- Model of Rust `str::split('.')` on the character list: every occurrence of
`'.'` separates, empty pieces are kept, and the empty string yields one empty
piece. -/
def splitDot : List Char → List (List Char)
  | [] => [[]]
  | c :: rest =>
    let r := splitDot rest
    if c == '.' then
      [] :: r
    else
      match r with
      | s :: ss => (c :: s) :: ss
      | [] => [[c]]

/-- `path.split(".")` from `find_key` (src/config.rs line 97). -/
def splitPath (path : String) : List String :=
  (splitDot path.data).map List.asString

/-- Model of `leaf.parse::<usize>()`: an optional leading `'+'`, then one or
more ASCII digits, nothing else.  (Overflow past `usize::MAX` is collapsed
into a successful parse of a huge index; both behaviours make `find_key`
answer `NoSuchKey`, see the header note.) -/
def parseUsize (s : String) : Option Nat :=
  let digits :=
    match s.data with
    | '+' :: rest => rest
    | cs => cs
  if digits.isEmpty then none
  else if digits.all Char.isDigit then
    some (digits.foldl (fun n c => n * 10 + (c.toNat - 48)) 0)
  else none

/-- The per-segment loop of `find_key` (src/config.rs lines 96-111), with the
in-place mutation through `&mut` references made explicit: the result is the
(possibly mutated) current subtree paired with the resolved node (`Ok`) or the
error (`Err`). -/
def findKeyAux : Value → List String → Bool → Value × Except ConfigError Value
  | v, [], _ => (v, .ok v)
  | .table kvs, leaf :: rest, create =>
    let kvs1 :=
      if create && !(mapContains kvs leaf) then
        mapInsert kvs leaf (.table [])
      else kvs
    match mapGet kvs1 leaf with
    | some child =>
      let r := findKeyAux child rest create
      (.table (mapInsert kvs1 leaf r.1), r.2)
    | none => (.table kvs1, .error .noSuchKey)
  | .array vs, leaf :: rest, create =>
    match parseUsize leaf with
    | some i =>
      match vs[i]? with
      | some child =>
        let r := findKeyAux child rest create
        (.array (vs.set i r.1), r.2)
      | none => (.array vs, .error .noSuchKey)
    | none => (.array vs, .error .noSuchKey)
  | v, _ :: _, _ => (v, .error .noSuchKey)

/-- `find_key` (src/config.rs lines 91-112): split the path on `'.'` and walk
the tree segment by segment.  Returns the updated root together with the
resolved node or the error. -/
def find_key (root : Value) (path : String) (create : Bool) :
    Value × Except ConfigError Value :=
  findKeyAux root (splitPath path) create

/-- Modelled from the spec (§4.2 Path Resolver), segment loop: at a Table, if
`create` and the segment key is absent, insert an empty Table at that key
before descending, otherwise descend into the existing key or fail with
`NoSuchKey`; at a Sequence, parse the segment as a non-negative integer index
and fail with `NoSuchKey` when it is not a valid integer or is out of bounds
(never auto-extended); at a Scalar, fail with `NoSuchKey`. -/
def resolveSpecSegs : Value → List String → Bool → Value × Except ConfigError Value
  | v, [], _ => (v, .ok v)
  | .table kvs, leaf :: rest, create =>
    if create && !(mapContains kvs leaf) then
      let kvs' := mapInsert kvs leaf (.table [])
      match mapGet kvs' leaf with
      | some child =>
        let r := resolveSpecSegs child rest create
        (.table (mapInsert kvs' leaf r.1), r.2)
      | none => (.table kvs', .error .noSuchKey)
    else
      match mapGet kvs leaf with
      | some child =>
        let r := resolveSpecSegs child rest create
        (.table (mapInsert kvs leaf r.1), r.2)
      | none => (.table kvs, .error .noSuchKey)
  | .array vs, leaf :: rest, create =>
    match parseUsize leaf with
    | some i =>
      match vs[i]? with
      | some child =>
        let r := resolveSpecSegs child rest create
        (.array (vs.set i r.1), r.2)
      | none => (.array vs, .error .noSuchKey)
    | none => (.array vs, .error .noSuchKey)
  | v, _ :: _, _ => (v, .error .noSuchKey)

/-- Modelled from the spec (§4.2): the whole resolution algorithm, to be
compared with `find_key`. -/
def resolveSpec (root : Value) (path : String) (create : Bool) :
    Value × Except ConfigError Value :=
  resolveSpecSegs root (splitPath path) create

/-- Result of `fs::read_to_string` in `Config::load_raw`
(src/config.rs line 51). -/
inductive ReadResult : Type where
  | ok (contents : String)
  | notFound
  | otherError
deriving DecidableEq

/-- The failure modes of `Config::load_raw`. -/
inductive LoadError : Type where
  | noConfigFile
  | malformedDocument
  | ioError
deriving DecidableEq

/-- `Config::get_path` (src/config.rs lines 43-48): the explicit path takes
precedence, else the environment-derived default config file. -/
def get_path (explicit default_config_file : Option String) : Option String :=
  match explicit with
  | some p => some p
  | none => default_config_file

/-- `Value::try_from(Config::default()).unwrap()` (src/config.rs line 54):
the serialized default `Config` — `cli.prompt = false`, the default
`SandboxConfig` variant `Chroot` under its `type` tag, and the default
(empty) `RepoConfig`. -/
def defaultConfigTable : List (String × Value) :=
  [("cli", .table [("prompt", .boolean false)]),
   ("sandbox", .table [("type", .string "chroot")]),
   ("repo", .table [("default", .array [])])]

def defaultConfigValue : Value :=
  .table defaultConfigTable

/-- `Config::load_raw` (src/config.rs lines 50-58), with the filesystem and
the external TOML parser passed as parameters: a missing file yields the
serialized default `Config`, other read errors are propagated, and a read
string is handed to the parser, whose failure is propagated. -/
def load_raw (fs : String → ReadResult) (parseToml : String → Option Value)
    (explicit default_config_file : Option String) : Except LoadError Value :=
  match get_path explicit default_config_file with
  | none => .error .noConfigFile
  | some p =>
    match fs p with
    | .ok s =>
      match parseToml s with
      | some v => .ok v
      | none => .error .malformedDocument
    | .notFound => .ok defaultConfigValue
    | .otherError => .error .ioError

/-- Outcome of the value-conversion step of `set`; `panicked` stands for the
`.unwrap()` and the `panic!()` branches. -/
inductive ConvOutcome : Type where
  | val (v : Value)
  | panicked

/-- The value-conversion step of `set` (src/config.rs lines 133-143): the
literal is speculatively parsed as the one-entry document `x=<literal>`; a
successful parse must be a table whose `x` entry is taken (otherwise the
`unwrap`/`panic!` branches), and a failed parse falls back to the literal as
a String scalar. -/
def convert_value (parseToml : String → Option Value) (raw_value : String) :
    ConvOutcome :=
  match parseToml ("x=" ++ raw_value) with
  | some (.table tbl) =>
    match mapGet tbl "x" with
    | some v => .val v
    | none => .panicked
  | some _ => .panicked
  | none => .val (.string raw_value)

/-! ### Association-list map laws -/

theorem mapGet_insert {α : Type} (m : List (String × α)) (k n : String) (v : α) :
    mapGet (mapInsert m k v) n = if n = k then some v else mapGet m n := by
  induction m with
  | nil =>
    rcases eq_or_ne n k with rfl | h
    · simp [mapInsert, mapGet]
    · have h2 : k ≠ n := Ne.symm h
      simp [mapInsert, mapGet, beq_iff_eq, h, h2]
  | cons p ps ih =>
    rcases eq_or_ne n k with rfl | h
    · by_cases hp : p.1 = n
      · simp [mapInsert, mapGet, beq_iff_eq, hp]
      · simp [mapInsert, mapGet, beq_iff_eq, hp, ih]
    · have h2 : k ≠ n := Ne.symm h
      by_cases hp : p.1 = k
      · have hpn : p.1 ≠ n := by rw [hp]; exact h2
        simp [mapInsert, mapGet, beq_iff_eq, hp, hpn, h, h2]
      · by_cases hpn : p.1 = n
        · simp [mapInsert, mapGet, beq_iff_eq, hp, hpn, h]
        · simp [mapInsert, mapGet, beq_iff_eq, hp, hpn, h, ih]

theorem mapGet_remove {α : Type} (m : List (String × α)) (k n : String) :
    mapGet (mapRemove m k) n = if n = k then none else mapGet m n := by
  induction m with
  | nil => simp [mapRemove, mapGet]
  | cons p ps ih =>
    rcases eq_or_ne n k with rfl | h
    · by_cases hp : p.1 = n
      · simpa [mapRemove, mapGet, List.filter_cons, beq_iff_eq, bne_iff_ne, hp] using ih
      · simpa [mapRemove, mapGet, List.filter_cons, beq_iff_eq, bne_iff_ne, hp] using ih
    · have h2 : k ≠ n := Ne.symm h
      by_cases hp : p.1 = k
      · have hpn : p.1 ≠ n := by rw [hp]; exact h2
        simpa [mapRemove, mapGet, List.filter_cons, beq_iff_eq, bne_iff_ne, hp, hpn, h, h2] using ih
      · by_cases hpn : p.1 = n
        · simp [mapRemove, mapGet, List.filter_cons, beq_iff_eq, bne_iff_ne, hp, hpn, h, h2]
        · simpa [mapRemove, mapGet, List.filter_cons, beq_iff_eq, bne_iff_ne, hp, hpn, h, h2] using ih

theorem mapContains_insert {α : Type} (m : List (String × α)) (k n : String) (v : α) :
    mapContains (mapInsert m k v) n = true ↔ (n = k ∨ mapContains m n = true) := by
  by_cases h : n = k <;> simp [mapContains, mapGet_insert, h]

theorem mapContains_remove {α : Type} (m : List (String × α)) (k n : String) :
    mapContains (mapRemove m k) n = true ↔ (n ≠ k ∧ mapContains m n = true) := by
  by_cases h : n = k <;> simp [mapContains, mapGet_remove, h]

theorem mapInsert_get_self {α : Type} (m : List (String × α)) (k : String) (v : α)
    (h : mapGet m k = some v) : mapInsert m k v = m := by
  induction m with
  | nil => simp [mapGet] at h
  | cons p ps ih =>
    by_cases hp : p.1 = k
    · have h2 : p.2 = v := by simpa [mapGet, beq_iff_eq, hp] using h
      have h3 : (k, v) = p := by rw [← hp, ← h2]
      simp [mapInsert, beq_iff_eq, hp, h3]
    · have h4 : mapGet ps k = some v := by simpa [mapGet, beq_iff_eq, hp] using h
      simp [mapInsert, beq_iff_eq, hp, ih h4]

theorem list_set_get_self {α : Type} :
    ∀ (vs : List α) (i : Nat) (c : α), vs[i]? = some c → vs.set i c = vs := by
  intro vs
  induction vs with
  | nil => intro i c h; simp at h
  | cons x xs ih =>
    intro i c h
    cases i with
    | zero => simp_all
    | succ j =>
      simp only [List.getElem?_cons_succ] at h
      simp [List.set, ih j c h]

theorem filter_ne_not_mem (l : List String) (k : String) :
    k ∉ l.filter (fun r => r != k) := by
  simp [List.mem_filter]

theorem filter_ne_idem (l : List String) (k : String) :
    (l.filter (fun r => r != k)).filter (fun r => r != k) = l.filter (fun r => r != k) := by
  simp [List.filter_filter]

/-! ### Preservation of the registry invariant by each operation -/

theorem invariant_iff (c : RepoConfig) :
    c.invariant = true ↔ ∀ n ∈ c.default_repos, mapContains c.repos n = true := by
  simp [RepoConfig.invariant, List.all_eq_true]

theorem invariant_add (c : RepoConfig) (name : String) (repo : Repo)
    (h : c.invariant = true) : (c.add name repo).invariant = true := by
  rw [invariant_iff] at h ⊢
  intro n hn
  rw [RepoConfig.add] at hn ⊢
  rw [mapContains_insert]
  exact Or.inr (h n hn)

theorem invariant_remove (c c2 : RepoConfig) (name : String)
    (h : c.invariant = true) (h2 : c.remove name = .ok c2) : c2.invariant = true := by
  rw [RepoConfig.remove] at h2
  cases hg : mapGet c.repos name with
  | none => rw [hg] at h2; cases h2
  | some r =>
    rw [hg] at h2
    injection h2 with h2
    subst h2
    rw [invariant_iff] at h ⊢
    intro n hn
    simp only [List.mem_filter, bne_iff_ne, decide_eq_true_eq] at hn
    rw [mapContains_remove]
    exact ⟨hn.2, h n hn.1⟩

theorem invariant_rename (c c2 : RepoConfig) (o n : String)
    (h : c.invariant = true) (h2 : c.rename o n = .ok c2) : c2.invariant = true := by
  rw [RepoConfig.rename] at h2
  cases hg : mapGet c.repos o with
  | none => rw [hg] at h2; cases h2
  | some repo =>
    rw [hg] at h2
    simp only at h2
    by_cases hp : (mapGet (mapRemove c.repos o) n).isSome
    · rw [if_pos hp] at h2; cases h2
    · rw [if_neg hp] at h2
      injection h2 with h2
      subst h2
      rw [invariant_iff] at h ⊢
      intro m hm
      simp only [List.mem_map] at hm
      obtain ⟨r, hr, hfr⟩ := hm
      rw [mapContains_insert]
      by_cases hro : r = o
      · left
        rw [← hfr, hro]
        simp
      · right
        rw [mapContains_remove]
        rw [← hfr]
        simp only [beq_iff_eq, hro, if_neg]
        exact ⟨hro, h r hr⟩

theorem invariant_setDefault (c c2 : RepoConfig) (name : String) (d f : Bool)
    (h : c.invariant = true) (h2 : c.set_default name d f = .ok c2) : c2.invariant = true := by
  rw [RepoConfig.set_default] at h2
  by_cases hc : mapContains c.repos name = true
  · rw [if_pos hc] at h2
    simp only at h2
    injection h2 with h2
    subst h2
    rw [invariant_iff] at h ⊢
    intro m hm
    simp only at hm ⊢
    have hmem : m = name ∨ m ∈ c.default_repos := by
      cases d <;> cases f <;> simp only [if_true, if_false, Bool.false_eq_true] at hm
      all_goals
        first
        | (rcases List.mem_filter.mp hm with ⟨hm1, _⟩; exact Or.inr hm1)
        | (rcases List.mem_cons.mp hm with hm | hm
           · exact Or.inl hm
           · rcases List.mem_filter.mp hm with ⟨hm1, _⟩; exact Or.inr hm1)
        | (rcases List.mem_append.mp hm with hm | hm
           · rcases List.mem_filter.mp hm with ⟨hm1, _⟩; exact Or.inr hm1
           · exact Or.inl (List.mem_singleton.mp hm))
    rcases hmem with rfl | hmem
    · exact hc
    · exact h m hmem
  · rw [if_neg hc] at h2; cases h2

/-! ### The claims -/

/-- C1: starting from any registry state in which every name in
`default_repos` is a key of `repos`, after any sequence of successful
add/remove/rename/set_default operations, every name in `default_repos` is
still a key of `repos` (no dangling names). -/
theorem C1_registry_consistency (ops : List Op) :
    ∀ c c2 : RepoConfig, c.invariant = true → applySeq c ops = some c2 →
      c2.invariant = true := by
  induction ops with
  | nil =>
    intro c c2 h h2
    rw [applySeq] at h2
    injection h2 with h2
    subst h2
    exact h
  | cons op ops ih =>
    intro c c2 h h2
    rw [applySeq] at h2
    cases hop : applyOp c op with
    | none => rw [hop] at h2; cases h2
    | some c1 =>
      rw [hop] at h2
      refine ih c1 c2 ?_ h2
      cases op with
      | add name repo =>
        rw [applyOp] at hop
        injection hop with hop
        subst hop
        exact invariant_add c name repo h
      | remove name =>
        rw [applyOp] at hop
        cases hr : c.remove name with
        | ok cx =>
          rw [hr] at hop
          simp only at hop
          injection hop with hop
          subst hop
          exact invariant_remove c _ name h hr
        | error e => rw [hr] at hop; cases hop
      | rename o n =>
        rw [applyOp] at hop
        cases hr : c.rename o n with
        | ok cx =>
          rw [hr] at hop
          simp only at hop
          injection hop with hop
          subst hop
          exact invariant_rename c _ o n h hr
        | noSuchRepo => rw [hr] at hop; cases hop
        | panicked => rw [hr] at hop; cases hop
      | setDefault name d f =>
        rw [applyOp] at hop
        cases hr : c.set_default name d f with
        | ok cx =>
          rw [hr] at hop
          simp only at hop
          injection hop with hop
          subst hop
          exact invariant_setDefault c _ name d f h hr
        | error e => rw [hr] at hop; cases hop

/-- Witness for C1: a concrete run of add, set_default and rename from a
state satisfying the invariant. -/
theorem C1_registry_consistency_witness :
    RepoConfig.invariant { default_repos := ["b"], repos := [("b", Repo.dummy)] } = true :=
  C1_registry_consistency
    [Op.add "a" Repo.dummy, Op.setDefault "a" true true, Op.rename "a" "b"]
    { default_repos := [], repos := [] }
    { default_repos := ["b"], repos := [("b", Repo.dummy)] }
    (by decide) (by decide)

/-- C2 counterexample: the file-absent default registry has no entry at all —
in particular `repos` does not contain a "dummy" entry and `default_repos`
does not contain "dummy". -/
theorem C2_default_not_dummy :
    mapContains RepoConfig.default.repos "dummy" = false ∧
    RepoConfig.default.default_repos.contains "dummy" = false ∧
    RepoConfig.default.repos.length = 0 := by
  decide

/-- C2 (amended): the default-value (file-absent) registry is empty: `repos`
has no entries and `default_repos` is empty; loading when the config file
does not exist yields the serialized default configuration, whose registry
section is the empty registry. -/
theorem C2_default_registry_empty (fs : String → ReadResult)
    (parseToml : String → Option Value) (explicit dflt : Option String) (p : String)
    (hpath : get_path explicit dflt = some p) (hfs : fs p = .notFound) :
    load_raw fs parseToml explicit dflt = .ok defaultConfigValue ∧
    RepoConfig.default.default_repos = [] ∧
    RepoConfig.default.repos = [] ∧
    mapGet defaultConfigTable "repo" = some (.table [("default", .array [])]) := by
  refine ⟨?_, rfl, rfl, rfl⟩
  simp only [load_raw, hpath, hfs]

/-- Witness for C2 (amended) at a concrete filesystem and path. -/
theorem C2_default_registry_empty_witness :
    load_raw (fun _ => ReadResult.notFound) (fun _ => none) (some "config") none
      = .ok defaultConfigValue :=
  (C2_default_registry_empty (fun _ => ReadResult.notFound) (fun _ => none)
    (some "config") none "config" rfl rfl).1

/-- C3 counterexample: with `default_repos = ["b","a"]`, `list` with
`sort = true` and `only_default = true` returns the sorted list, not the
stored order. -/
theorem C3_sorted_default_counterexample :
    RepoConfig.list { default_repos := ["b", "a"],
                      repos := [("a", Repo.dummy), ("b", Repo.dummy)] } true true
      = ["a", "b"] ∧
    RepoConfig.list { default_repos := ["b", "a"],
                      repos := [("a", Repo.dummy), ("b", Repo.dummy)] } true true
      ≠ ["b", "a"] := by
  decide

/-- C3 (amended): with `only_default = true`, `list` returns `default_repos`
in stored order when `sort = false`, and sorts it when `sort = true` (the
sort flag applies to this branch too); the CLI `repo list` wrapper always
passes `sort = !only_default`, so the default listing is in stored order
there. -/
theorem C3_list_default_order (c : RepoConfig) :
    c.list false true = c.default_repos ∧
    c.list true true = sortStrings c.default_repos ∧
    c.list_cli true = c.default_repos :=
  ⟨rfl, rfl, rfl⟩

/-- C10: `add` inserts (or silently overwrites) the entry under `name` in
`repos`, leaves every other key unchanged, and never modifies
`default_repos`. -/
theorem C10_add_preserves_defaults (c : RepoConfig) (name : String) (repo : Repo) :
    (c.add name repo).default_repos = c.default_repos ∧
    mapGet (c.add name repo).repos name = some repo ∧
    (∀ k, k ≠ name → mapGet (c.add name repo).repos k = mapGet c.repos k) := by
  refine ⟨rfl, ?_, ?_⟩
  · rw [RepoConfig.add]
    simp [mapGet_insert]
  · intro k hk
    rw [RepoConfig.add]
    simp [mapGet_insert, hk]

/-- Witness for C10 at a concrete registry, name and backend. -/
theorem C10_add_preserves_defaults_witness :
    mapGet (RepoConfig.add { default_repos := ["a"], repos := [("a", Repo.dummy)] }
        "b" Repo.dummy).repos "a"
      = mapGet ({ default_repos := ["a"], repos := [("a", Repo.dummy)] } : RepoConfig).repos "a" :=
  (C10_add_preserves_defaults { default_repos := ["a"], repos := [("a", Repo.dummy)] }
    "b" Repo.dummy).2.2 "a" (by decide)

/-- C5 counterexample: renaming "a" to "a" while "a" is a key of `repos`
returns success even though the new name is already a key of `repos`,
because the old entry is removed before the insert. -/
theorem C5_rename_self_succeeds :
    mapContains ({ default_repos := ["a"], repos := [("a", Repo.dummy)] } : RepoConfig).repos "a"
      = true ∧
    RepoConfig.rename { default_repos := ["a"], repos := [("a", Repo.dummy)] } "a" "a"
      = .ok { default_repos := ["a"], repos := [("a", Repo.dummy)] } := by
  decide

/-- C5 (amended): `rename(old, new)` fails with `NoSuchRepo` when `old` is
absent from `repos`; when `new` is already a key of `repos` and differs from
`old` it fails fast with the fatal assertion (never returns success);
on success it moves the backend record from key `old` to key `new` and
rewrites every occurrence of `old` in `default_repos` to `new`, preserving
each occurrence's position. -/
theorem C5_rename_behavior (c : RepoConfig) (o n : String) :
    (mapGet c.repos o = none → c.rename o n = .noSuchRepo) ∧
    (mapContains c.repos o = true → mapContains c.repos n = true → o ≠ n →
      c.rename o n = .panicked) ∧
    (∀ c2, c.rename o n = .ok c2 →
      c2.default_repos = c.default_repos.map (fun r => if r == o then n else r) ∧
      (∃ repo, mapGet c.repos o = some repo ∧ mapGet c2.repos n = some repo) ∧
      (o ≠ n → mapGet c2.repos o = none) ∧
      (∀ k, k ≠ o → k ≠ n → mapGet c2.repos k = mapGet c.repos k)) := by
  refine ⟨?_, ?_, ?_⟩
  · intro h
    rw [RepoConfig.rename, h]
  · intro ho hn hne
    obtain ⟨r, hr⟩ := Option.isSome_iff_exists.mp ho
    have hrem : (mapGet (mapRemove c.repos o) n).isSome = true := by
      rw [mapGet_remove, if_neg (Ne.symm hne)]
      exact hn
    rw [RepoConfig.rename, hr]
    simp only [hrem, if_true]
  · intro c2 h2
    rw [RepoConfig.rename] at h2
    cases hg : mapGet c.repos o with
    | none => rw [hg] at h2; cases h2
    | some repo =>
      rw [hg] at h2
      simp only at h2
      by_cases hp : (mapGet (mapRemove c.repos o) n).isSome = true
      · rw [if_pos hp] at h2; cases h2
      · rw [if_neg hp] at h2
        injection h2 with h2
        subst h2
        refine ⟨rfl, ⟨repo, rfl, ?_⟩, ?_, ?_⟩
        · rw [mapGet_insert, if_pos rfl]
        · intro hne
          rw [mapGet_insert, if_neg hne, mapGet_remove, if_pos rfl]
        · intro k hko hkn
          rw [mapGet_insert, if_neg hkn, mapGet_remove, if_neg hko]

/-- Witness for C5 at a concrete registry where the new name exists and
differs from the old name: rename panics. -/
theorem C5_rename_behavior_witness :
    RepoConfig.rename { default_repos := [], repos := [("a", Repo.dummy), ("b", Repo.dummy)] }
        "a" "b" = .panicked :=
  (C5_rename_behavior ⟨[], [("a", Repo.dummy), ("b", Repo.dummy)]⟩ "a" "b").2.1
    (by decide) (by decide) (by decide)

/-- C6: when `name` is a key of `repos`, `set_default` first removes every
occurrence of `name` from `default_repos` and, when enabled, re-inserts it
once at the front (`first = true`) or at the back; with
`default = true, first = true` the result has exactly one occurrence of
`name`, at the front, and a repeated call returns the same state
(idempotence). -/
theorem C6_set_default_idempotent (c : RepoConfig) (name : String)
    (h : mapContains c.repos name = true) :
    (∀ d f, c.set_default name d f =
      .ok { c with default_repos :=
              if d then
                if f then name :: c.default_repos.filter (fun r => r != name)
                else c.default_repos.filter (fun r => r != name) ++ [name]
              else c.default_repos.filter (fun r => r != name) }) ∧
    (∀ c2, c.set_default name true true = .ok c2 →
      c2.default_repos.head? = some name ∧
      c2.default_repos.count name = 1 ∧
      c2.set_default name true true = .ok c2) := by
  constructor
  · intro d f
    rw [RepoConfig.set_default, if_pos h]
  · intro c2 h2
    rw [RepoConfig.set_default, if_pos h] at h2
    simp only [if_true] at h2
    injection h2 with h2
    subst h2
    refine ⟨rfl, ?_, ?_⟩
    · simp only [List.count_cons_self]
      have h0 : (c.default_repos.filter (fun r => r != name)).count name = 0 :=
        List.count_eq_zero.mpr (filter_ne_not_mem _ _)
      rw [h0]
    · have hL : ((name :: c.default_repos.filter (fun r => r != name)).filter
          (fun r => r != name)) = c.default_repos.filter (fun r => r != name) := by
        rw [List.filter_cons]
        simp [filter_ne_idem]
      rw [RepoConfig.set_default]
      simp [h, hL]

/-- Witness for C6 at a concrete registry: "a" is moved to the front,
deduplicated. -/
theorem C6_set_default_idempotent_witness :
    RepoConfig.set_default
        { default_repos := ["x", "a"], repos := [("a", Repo.dummy), ("x", Repo.dummy)] }
        "a" true true
      = .ok { default_repos := ["a", "x"], repos := [("a", Repo.dummy), ("x", Repo.dummy)] } := by
  have h := (C6_set_default_idempotent
      { default_repos := ["x", "a"], repos := [("a", Repo.dummy), ("x", Repo.dummy)] }
      "a" (by decide)).1 true true
  rw [h]
  rfl

/-- C7: loading from a resolvable path whose file does not exist is not an
error — it yields the serialized schema-default document; any other I/O
error is propagated, and a parse failure of an existing file is propagated
as an error. -/
theorem C7_missing_file_not_error (fs : String → ReadResult)
    (parseToml : String → Option Value) (explicit dflt : Option String) (p : String)
    (hpath : get_path explicit dflt = some p) :
    (fs p = .notFound → load_raw fs parseToml explicit dflt = .ok defaultConfigValue) ∧
    (fs p = .otherError → load_raw fs parseToml explicit dflt = .error .ioError) ∧
    (∀ s, fs p = .ok s → parseToml s = none →
      load_raw fs parseToml explicit dflt = .error .malformedDocument) := by
  refine ⟨?_, ?_, ?_⟩
  · intro h
    simp only [load_raw, hpath, h]
  · intro h
    simp only [load_raw, hpath, h]
  · intro s h hp
    simp only [load_raw, hpath, h, hp]

/-- Witness for C7 at a concrete missing file. -/
theorem C7_missing_file_not_error_witness :
    load_raw (fun _ => ReadResult.notFound) (fun _ => none) none (some "store/config")
      = .ok defaultConfigValue :=
  (C7_missing_file_not_error (fun _ => ReadResult.notFound) (fun _ => none) none
    (some "store/config") "store/config" rfl).1 rfl

/-- C8: the value-conversion step of `set` never fails and never panics:
given that the external TOML parser returns, on any document of the form
`x=<literal>`, only tables containing key `x`, the conversion yields either
the typed value obtained from the speculative parse, or, when that parse
fails, the literal verbatim as a String scalar — the panic/unwrap branches
are unreachable and no error is produced. -/
theorem C8_value_conversion_total (parseToml : String → Option Value)
    (hp : ∀ r v, parseToml ("x=" ++ r) = some v →
      ∃ tbl, v = Value.table tbl ∧ (mapGet tbl "x").isSome = true)
    (raw : String) :
    convert_value parseToml raw ≠ .panicked ∧
    (parseToml ("x=" ++ raw) = none → convert_value parseToml raw = .val (.string raw)) ∧
    (∀ tbl, parseToml ("x=" ++ raw) = some (.table tbl) →
      ∃ v, mapGet tbl "x" = some v ∧ convert_value parseToml raw = .val v) := by
  refine ⟨?_, ?_, ?_⟩
  · intro hcontra
    rw [convert_value] at hcontra
    cases hg : parseToml ("x=" ++ raw) with
    | none => rw [hg] at hcontra; cases hcontra
    | some v =>
      obtain ⟨tbl, rfl, hx⟩ := hp raw v hg
      obtain ⟨xv, hxv⟩ := Option.isSome_iff_exists.mp hx
      rw [hg] at hcontra
      simp only [hxv] at hcontra
      cases hcontra
  · intro h
    rw [convert_value, h]
  · intro tbl hg
    cases hx : mapGet tbl "x" with
    | none =>
      obtain ⟨tbl2, heq, hx2⟩ := hp raw (Value.table tbl) hg
      injection heq with heq
      subst heq
      rw [hx] at hx2
      cases hx2
    | some xv =>
      refine ⟨xv, rfl, ?_⟩
      rw [convert_value, hg]
      simp only [hx]

/-- Witness for C8 with a parser that rejects everything: the fallback
String scalar is produced. -/
theorem C8_value_conversion_total_witness :
    convert_value (fun _ => none) "42" = .val (.string "42") :=
  (C8_value_conversion_total (fun _ => none)
    (fun _ _ h => Option.noConfusion h) "42").2.1 rfl

theorem findKeyAux_eq_resolveSpecSegs :
    ∀ (segs : List String) (v : Value) (create : Bool),
      findKeyAux v segs create = resolveSpecSegs v segs create := by
  intro segs
  induction segs with
  | nil => intro v c; cases v <;> rfl
  | cons leaf rest ih =>
    intro v c
    cases v with
    | string s => rfl
    | integer i => rfl
    | float => rfl
    | boolean b => rfl
    | datetime => rfl
    | array vs =>
      simp only [findKeyAux, resolveSpecSegs]
      cases parseUsize leaf with
      | none => rfl
      | some i =>
        cases hv : vs[i]? with
        | none => simp [hv]
        | some child => simp [hv, ih]
    | table kvs =>
      by_cases hc : (c && !(mapContains kvs leaf)) = true
      · have hg : mapGet (mapInsert kvs leaf (Value.table [])) leaf
            = some (Value.table []) := by
          rw [mapGet_insert, if_pos rfl]
        simp only [findKeyAux, resolveSpecSegs, hc, if_true, hg, ih]
      · simp only [findKeyAux, resolveSpecSegs, hc, if_false]
        cases hg : mapGet kvs leaf with
        | none => simp [hg]
        | some child => simp [hg, ih]

/-- C4: `find_key` follows the per-segment algorithm stated by the spec —
split the path on `'.'`; at a Table with `create` and an absent key, insert
an empty Table before descending, otherwise descend into the existing key or
fail with `NoSuchKey`; at a Sequence, use the segment as a parsed
non-negative index, failing with `NoSuchKey` on a non-integer or
out-of-bounds segment even in create mode; at a Scalar, fail with
`NoSuchKey`. -/
theorem C4_find_key_follows_spec (root : Value) (path : String) (create : Bool) :
    find_key root path create = resolveSpec root path create :=
  findKeyAux_eq_resolveSpecSegs (splitPath path) root create

theorem findKeyAux_fresh_table_ok :
    ∀ (rest : List String) (e : ConfigError),
      (findKeyAux (Value.table []) rest true).2 ≠ .error e := by
  intro rest
  induction rest with
  | nil => intro e h; simp [findKeyAux] at h
  | cons leaf rest ih =>
    intro e h
    simp only [findKeyAux, mapContains, mapGet, mapInsert, Option.isSome_none,
      Bool.not_false, Bool.and_true, beq_self_eq_true, if_true] at h
    exact ih e h

theorem findKeyAux_error_unchanged :
    ∀ (segs : List String) (v : Value) (create : Bool) (e : ConfigError),
      (findKeyAux v segs create).2 = .error e → (findKeyAux v segs create).1 = v := by
  intro segs
  induction segs with
  | nil => intro v c e h; simp [findKeyAux] at h
  | cons leaf rest ih =>
    intro v c e h
    cases v with
    | string s => simp [findKeyAux]
    | integer i => simp [findKeyAux]
    | float => simp [findKeyAux]
    | boolean b => simp [findKeyAux]
    | datetime => simp [findKeyAux]
    | array vs =>
      cases hp : parseUsize leaf with
      | none => simp [findKeyAux, hp]
      | some i =>
        cases hv : vs[i]? with
        | none => simp [findKeyAux, hp, hv]
        | some child =>
          simp only [findKeyAux, hp, hv] at h ⊢
          have h1 := ih child c e h
          simp [h1, list_set_get_self vs i child hv]
    | table kvs =>
      by_cases hc : (c && !(mapContains kvs leaf)) = true
      · have hcr : c = true := by revert hc; cases c <;> simp
        have hg : mapGet (mapInsert kvs leaf (Value.table [])) leaf
            = some (Value.table []) := by
          rw [mapGet_insert, if_pos rfl]
        subst hcr
        simp only [findKeyAux, hc, if_true, hg] at h
        exact absurd h (findKeyAux_fresh_table_ok rest e)
      · have hc2 : (c && !(mapContains kvs leaf)) = false := by
          revert hc; cases (c && !(mapContains kvs leaf)) <;> simp
        cases hg : mapGet kvs leaf with
        | none => simp [findKeyAux, hc2, hg]
        | some child =>
          simp only [findKeyAux, hc2, Bool.false_eq_true, if_false, hg] at h ⊢
          have h1 := ih child c e h
          simp [h1, mapInsert_get_self kvs leaf child hg]

/-- C9: path resolution is atomic on failure even in create mode — whenever
`find_key` returns `NoSuchKey`, the tree is unchanged (an intermediate empty
Table is only ever inserted on a call that returns success). -/
theorem C9_find_key_atomic_on_failure (root : Value) (path : String) (create : Bool)
    (e : ConfigError) (h : (find_key root path create).2 = .error e) :
    (find_key root path create).1 = root :=
  findKeyAux_error_unchanged (splitPath path) root create e h

/-- Witness for C9: resolving "a.b" in create mode over a tree whose "a" is
an array fails at "b" and leaves the tree unchanged. -/
theorem C9_find_key_atomic_on_failure_witness :
    (find_key (Value.table [("a", Value.array [])]) "a.b" true).1
      = Value.table [("a", Value.array [])] :=
  C9_find_key_atomic_on_failure (Value.table [("a", Value.array [])]) "a.b" true
    ConfigError.noSuchKey rfl

end Storm
